import Mathlib

/-!
Verification development for the car-listing acquisition-and-enrichment
pipeline: a shallow embedding of `DataPipeline/database.py`,
`DataPipeline/NHTSA_enrichment.py` and the round loop of
`DataPipeline/DataAquisition.py`, with theorems about the persistence model,
the backlog query, the enrichment flow and the convergence loop.
-/

namespace CarData

/-- Dynamic (Python/JSON-style) scalar values held in row dictionaries and
database cells. Numeric cells are modelled as integers: no property in this
development depends on the floating-point behaviour of the REAL columns. -/
inductive Val where
  | vstr (s : String)
  | vint (n : Int)
  | vbool (b : Bool)
deriving DecidableEq

/-- Python truthiness of a scalar value (empty string, zero and False are
falsy). -/
def truthy : Val → Bool
  | .vstr s => !s.isEmpty
  | .vint n => n != 0
  | .vbool b => b

/-- Truthiness of the result of `dict.get(k)`: an absent key yields `None`,
which is falsy. -/
def truthyOpt : Option Val → Bool
  | none => false
  | some v => truthy v

/-- Lookup `d.get(k)` on a Python dict modelled as an association list. -/
def dictGet (d : List (String × Val)) (k : String) : Option Val :=
  (d.find? (fun kv => kv.1 == k)).map (fun kv => kv.2)

/-- Lookup `d.get(k, default)`. -/
def dictGetD (d : List (String × Val)) (k : String) (dflt : Val) : Val :=
  (dictGet d k).getD dflt

/-- One nested history entry, a JSON object: each of `h.get('date')`,
`h.get('mileage')`, `h.get('price')`, `h.get('trend')` may be absent
(`None`, i.e. SQL NULL). -/
structure HEntry where
  hdate : Option Val
  mileage : Option Val
  price : Option Val
  trend : Option Val
deriving DecidableEq

/-- Parse outcome of a row's nested `priceHistory` / `listingHistory`
payload. `json.loads` is an external library call, so the payload is
modelled by its outcome: `absent` (key missing or falsy value), `malformed`
(`json.loads` raises), `notAList` (parses but `isinstance(.., list)` is
false), or the parsed list of entry objects. -/
inductive HistPayload where
  | absent
  | malformed
  | notAList
  | entries (es : List HEntry)
deriving DecidableEq

/-- One input row handed to `insert_rows`: a Python dict of scalar cells
plus the two structured history payloads. -/
structure Row where
  cells : List (String × Val)
  priceHistory : HistPayload
  listingHistory : HistPayload
deriving DecidableEq

/-- One `listings` (Snapshot) row: the composite key `(vin, loaddate)` plus
the remaining 20 column values in the order of the INSERT statement of
`insert_rows`. -/
structure Listing where
  vin : Val
  loaddate : Val
  vals : List (Option Val)
deriving DecidableEq

/-- One `price_history` row, with `UNIQUE(vin, history_date, price)`. -/
structure PHRow where
  vin : Val
  history_date : Option Val
  mileage : Option Val
  price : Option Val
  trend : Option Val
deriving DecidableEq

/-- One `listing_history` row, with
`UNIQUE(vin, history_date, price, mileage)`. -/
structure LHRow where
  vin : Val
  history_date : Option Val
  mileage : Option Val
  price : Option Val
deriving DecidableEq

/-- One `nhtsa_enrichment` row: primary key `vin` plus its field dict. -/
structure EnrRow where
  vin : Val
  fields : List (String × Val)
deriving DecidableEq

/-- The store: the four tables created by `CarDatabase._init_db`. -/
structure DB where
  listings : List Listing
  price_history : List PHRow
  listing_history : List LHRow
  nhtsa_enrichment : List EnrRow
deriving DecidableEq

def DB.empty : DB := ⟨[], [], [], []⟩

/-- SQLite unique-index comparison of two nullable cells: a conflict needs
both values non-NULL and equal ("for the purposes of unique indices, all
NULL values are considered different from all other NULL values"). -/
def sqlEq : Option Val → Option Val → Bool
  | some a, some b => a == b
  | _, _ => false

/-- Conflict on `UNIQUE(vin, history_date, price)` of `price_history`. -/
def phConflict (a b : PHRow) : Bool :=
  a.vin == b.vin && sqlEq a.history_date b.history_date && sqlEq a.price b.price

/-- Conflict on `UNIQUE(vin, history_date, price, mileage)` of
`listing_history`. -/
def lhConflict (a b : LHRow) : Bool :=
  a.vin == b.vin && sqlEq a.history_date b.history_date &&
    sqlEq a.price b.price && sqlEq a.mileage b.mileage

/-- `INSERT OR IGNORE INTO price_history ...`: dropped when a conflicting
row exists, appended otherwise. -/
def phInsert (t : List PHRow) (r : PHRow) : List PHRow :=
  if t.any (fun x => phConflict x r) then t else t ++ [r]

/-- `INSERT OR IGNORE INTO listing_history ...`. -/
def lhInsert (t : List LHRow) (r : LHRow) : List LHRow :=
  if t.any (fun x => lhConflict x r) then t else t ++ [r]

/-- `INSERT OR REPLACE INTO listings ...` with `PRIMARY KEY (vin, loaddate)`:
any existing row with the same key is replaced by the new one. -/
def listingsReplace (t : List Listing) (r : Listing) : List Listing :=
  t.filter (fun x => !(x.vin == r.vin && x.loaddate == r.loaddate)) ++ [r]

/-- The non-key columns of the `listings` INSERT in `insert_rows`, in the
order of the statement. -/
def listingColumns : List String :=
  ["year", "title", "details", "price", "mileage", "date",
   "location", "locationCode", "countryCode", "pendingSale",
   "currentBid", "bids", "distance", "priceRecentChange",
   "sellerType", "vehicleTitle", "listingType", "vehicleTitleDesc",
   "sourceName", "img"]

/-- The `price_history` row built from one parsed entry
(`(vin, h.get('date'), h.get('mileage'), h.get('price'), h.get('trend'))`). -/
def mkPH (vin : Val) (h : HEntry) : PHRow :=
  ⟨vin, h.hdate, h.mileage, h.price, h.trend⟩

/-- The `listing_history` row built from one parsed entry. -/
def mkLH (vin : Val) (h : HEntry) : LHRow :=
  ⟨vin, h.hdate, h.mileage, h.price⟩

/-- The per-row loop over parsed `priceHistory` entries in `insert_rows`. -/
def phFold (vin : Val) (t : List PHRow) (es : List HEntry) : List PHRow :=
  es.foldl (fun acc h => phInsert acc (mkPH vin h)) t

/-- The per-row loop over parsed `listingHistory` entries in `insert_rows`. -/
def lhFold (vin : Val) (t : List LHRow) (es : List HEntry) : List LHRow :=
  es.foldl (fun acc h => lhInsert acc (mkLH vin h)) t

/-- Processing of one row inside `insert_rows`: skip when `vin` or
`loaddate` is falsy (`if not vin or not loaddate: continue`); otherwise
replace-insert the listing snapshot — the `cursor.rowcount > 0` test always
holds after a successful INSERT (OR REPLACE counts as one change), so the
row is counted — then insert-or-ignore the nested history entries; a
malformed or non-list payload only skips that payload's entries. Returns
the updated store and the contribution to `inserted_count`. -/
def processRow (db : DB) (row : Row) : DB × Nat :=
  match dictGet row.cells "vin", dictGet row.cells "loaddate" with
  | some vin, some loaddate =>
    if truthy vin && truthy loaddate then
      let snap : Listing := ⟨vin, loaddate, listingColumns.map (dictGet row.cells)⟩
      let db1 : DB := { db with listings := listingsReplace db.listings snap }
      let db2 : DB :=
        match row.priceHistory with
        | .entries es => { db1 with price_history := phFold vin db1.price_history es }
        | _ => db1
      let db3 : DB :=
        match row.listingHistory with
        | .entries es => { db2 with listing_history := lhFold vin db2.listing_history es }
        | _ => db2
      (db3, 1)
    else (db, 0)
  | _, _ => (db, 0)

/-- `CarDatabase.insert_rows`: processes each row in order, accumulating
`inserted_count`; returns the final store and the count. -/
def insert_rows (db : DB) (rows : List Row) : DB × Nat :=
  rows.foldl (fun acc row =>
    let r := processRow acc.1 row
    (r.1, acc.2 + r.2)) (db, 0)

/-- A row that `insert_rows` actually writes: both `vin` and `loaddate`
present and truthy. -/
def rowValid (row : Row) : Bool :=
  truthyOpt (dictGet row.cells "vin") && truthyOpt (dictGet row.cells "loaddate")

/-- The snapshot key a row would be written under, when valid. -/
def rowKey (row : Row) : Option (Val × Val) :=
  match dictGet row.cells "vin", dictGet row.cells "loaddate" with
  | some vin, some loaddate =>
    if truthy vin && truthy loaddate then some (vin, loaddate) else none
  | _, _ => none

/-- Number of `listings` rows carrying the key `(v, d)`. -/
def countKey (db : DB) (v d : Val) : Nat :=
  (db.listings.filter (fun x => x.vin == v && x.loaddate == d)).length

/-- `CarDatabase.get_vins_for_enrichment`: SELECT DISTINCT l.vin FROM
listings l LEFT JOIN nhtsa_enrichment n ON l.vin = n.vin WHERE n.vin IS
NULL — the distinct listing vins with no enrichment row (row order of the
SQL result is unspecified; the list is read up to membership). -/
def get_vins_for_enrichment (db : DB) : List Val :=
  ((db.listings.map Listing.vin).dedup).filter
    (fun v => !(db.nhtsa_enrichment.any (fun e => e.vin == v)))

/-- `INSERT OR REPLACE INTO nhtsa_enrichment ...` keyed by `vin`. -/
def enrReplace (t : List EnrRow) (r : EnrRow) : List EnrRow :=
  t.filter (fun x => !(x.vin == r.vin)) ++ [r]

/-- `CarDatabase.insert_nhtsa_enrichment_batch`: for each `(vin, fields)`
item of the dict, skip when the fields dict is empty
(`if not enrichment_data: continue`), otherwise replace-insert the row for
that vin. The dynamic column names are those produced by the enrichment
engine, all columns of the table. -/
def insert_nhtsa_enrichment_batch (db : DB)
    (batch : List (Val × List (String × Val))) : DB :=
  batch.foldl (fun d p =>
    if p.2.isEmpty then d
    else { d with nhtsa_enrichment := enrReplace d.nhtsa_enrichment ⟨p.1, p.2⟩ }) db

/-- `CarDatabase.insert_nhtsa_enrichment`: delegates to the batch insert
with a singleton dict. -/
def insert_nhtsa_enrichment (db : DB) (vin : Val)
    (data : List (String × Val)) : DB :=
  insert_nhtsa_enrichment_batch db [(vin, data)]

/-- Whether an enrichment row exists for `v`. -/
def enrHasVin (db : DB) (v : Val) : Bool :=
  db.nhtsa_enrichment.any (fun e => e.vin == v)

/-- Python `str(value)` for our scalar values. -/
def pyStr : Val → String
  | .vstr s => s
  | .vint n => toString n
  | .vbool b => cond b "True" "False"

/-- Python whitespace for `str.strip()`. -/
def isSpaceChar (c : Char) : Bool :=
  c == ' ' || c == '\t' || c == '\n' || c == '\x0d' || c == '\x0c' || c == '\x0b'

/-- Python `str.strip()` on the character list. -/
def pyStrip (l : List Char) : List Char :=
  ((l.dropWhile isSpaceChar).reverse.dropWhile isSpaceChar).reverse

/-- Python `str.lower()` on one ASCII character. -/
def pyLowerChar (c : Char) : Char :=
  if 'A' ≤ c && c ≤ 'Z' then Char.ofNat (c.toNat + 32) else c

/-- Whether the first list is an initial segment of the second. -/
def startsList : List Char → List Char → Bool
  | [], _ => true
  | _ :: _, [] => false
  | a :: as, b :: bs => a == b && startsList as bs

/-- Python `needle in hay` on character lists. -/
def hasSub (needle : List Char) : List Char → Bool
  | [] => needle.isEmpty
  | c :: rest => startsList needle (c :: rest) || hasSub needle rest

/-- `NHTSAEnricher._is_valid_vin` on a string (Python string operations
modelled on the character list): after stripping, reject empty, shorter
than 3 characters, containing a masking asterisk, or containing
"invalid" case-insensitively. -/
def is_valid_vin (vin : String) : Bool :=
  let s := pyStrip vin.data
  if s.isEmpty || s.length < 3 then false
  else if s.contains '*' || hasSub "invalid".data (s.map pyLowerChar) then false
  else true

/-- Python `str.strip()` on a string. -/
def stripStr (s : String) : String := String.mk (pyStrip s.data)

/-- `_is_valid_vin` applied to a stored value: the code first renders the
value with `str(..)` (the `pd.isna` / `None` cases are carried by the
`Option` layer at the call sites; stored cell values are not `None`). -/
def is_valid_vin_val (v : Val) : Bool := is_valid_vin (pyStr v)

/-- The request payload of `decode_vins_batch`: the stripped renderings of
the vins that pass the validity filter
(`[str(v).strip() for v in vins if self._is_valid_vin(v)]`). -/
def validPayload (vins : List Val) : List String :=
  (vins.filter is_valid_vin_val).map (fun v => stripStr (pyStr v))

/-- The external NHTSA services, modelled as functions. `decodeResults`
maps a batch-decode request payload to the `Results` list of its JSON
response; `none` models a timeout, transport error or a response without
`Results`. The three auxiliary services are modelled by the already
extracted field dicts for a `(modelYear, make, model)` composite: the
shared MMY caches and their lock only memoize these calls, they do not
change the fields obtained, so the cache mechanics are elided and the
auxiliary data is read from the environment directly. -/
structure LookupEnv where
  decodeResults : List String → Option (List (List (String × Val)))
  safetyFields : String → String → String → List (String × Val)
  recallFields : String → String → String → List (String × Val)
  complaintFields : String → String → String → List (String × Val)

/-- `decode_vins_batch`: filter to the valid vins; an empty valid list
short-circuits to `None` without any external call; otherwise the
response's `Results` when truthy (a response with an empty `Results` list
is also reported as `None` by the code). -/
def decode_vins_batch (env : LookupEnv) (vins : List Val) :
    Option (List (List (String × Val))) :=
  let valid := validPayload vins
  if valid.isEmpty then none
  else
    match env.decodeResults valid with
    | some rs => if rs.isEmpty then none else some rs
    | none => none

/-- The `selected_fields` list of `extract_specs_from_results`, transcribed
from the source. -/
def selected_fields : List String :=
  ["ABS", "ActiveSafetySysNote", "AdaptiveCruiseControl", "AdaptiveDrivingBeam",
   "AdaptiveHeadlights", "AdditionalErrorText", "AirBagLocCurtain", "AirBagLocFront",
   "AirBagLocKnee", "AirBagLocSeatCushion", "AirBagLocSide", "AutoReverseSystem",
   "AutomaticPedestrianAlertingSound", "AxleConfiguration", "Axles", "BasePrice",
   "BedLengthIN", "BedType", "BlindSpotIntervention", "BlindSpotMon",
   "BodyCabType", "BodyClass", "BrakeSystemDesc", "BrakeSystemType", "ChargerLevel",
   "ChargerPowerKW", "CombinedBrakingSystem", "CoolingType", "CurbWeightLB",
   "DaytimeRunningLight", "DestinationMarket", "DisplacementCC",
   "DisplacementCI", "DisplacementL", "Doors", "DriveType", "DriverAssist",
   "DynamicBrakeSupport", "EDR", "ESC", "EVDriveUnit", "ElectrificationLevel",
   "EngineConfiguration", "EngineCycles", "EngineCylinders", "EngineHP", "EngineHP_to",
   "EngineKW", "EngineManufacturer", "EngineModel", "EntertainmentSystem",
   "ForwardCollisionWarning", "FuelInjectionType", "FuelTankMaterial",
   "FuelTankType", "FuelTypePrimary", "FuelTypeSecondary",
   "KeylessIgnition", "LaneCenteringAssistance", "LaneDepartureWarning", "LaneKeepSystem",
   "LowerBeamHeadlampLightSource", "Make", "MakeID", "Manufacturer", "ManufacturerId",
   "Model", "ModelID", "ModelYear", "OtherEngineInfo", "ParkAssist",
   "PedestrianAutomaticEmergencyBraking",
   "RearAutomaticEmergencyBraking", "RearCrossTrafficAlert", "RearVisibilitySystem",
   "SAEAutomationLevel", "SAEAutomationLevel_to", "SeatRows", "Seats",
   "SemiautomaticHeadlampBeamSwitching", "TPMS", "TopSpeedMPH", "TrackWidth",
   "TractionControl", "TransmissionSpeeds",
   "TransmissionStyle", "Trim", "Trim2",
   "WheelSizeFront", "WheelSizeRear", "Windows", "VehicleType", "WheelBaseLong",
   "WheelBaseShort", "WheelBaseType"]

/-- `extract_specs_from_results` on a single result dict (the form used by
`process_batch`): every selected field is extracted with default `""` and
stored under `nhtsa_<field>`; the resulting dict is never empty. -/
def extract_specs_from_results (result : List (String × Val)) : List (String × Val) :=
  selected_fields.map (fun f => ("nhtsa_" ++ f, dictGetD result f (Val.vstr "")))

/-- Python `dict.update`: keys of `new` win; dicts are read by key lookup,
so the relative order of keys is not significant. -/
def dictUpdate (d new : List (String × Val)) : List (String × Val) :=
  d.filter (fun kv => !(new.any (fun nv => nv.1 == kv.1))) ++ new

/-- `d[k] = v` on a dict modelled as an association list (the write into
`batch_specs`). -/
def assocPut (d : List (Val × List (String × Val))) (k : Val)
    (v : List (String × Val)) : List (Val × List (String × Val)) :=
  if d.any (fun p => p.1 == k) then
    d.map (fun p => if p.1 == k then (k, v) else p)
  else d ++ [(k, v)]

/-- The spec dict built for one decode result in `process_batch`: the
extracted spec fields, merged — when make, model and model-year are all
truthy — with the (cached) safety-ratings, recalls and complaints data for
that composite. -/
def resultSpecs (env : LookupEnv) (result : List (String × Val)) :
    List (String × Val) :=
  let specs := extract_specs_from_results result
  let mk := dictGetD result "Make" (Val.vstr "")
  let md := dictGetD result "Model" (Val.vstr "")
  let my := dictGetD result "ModelYear" (Val.vstr "")
  if truthy mk && truthy md && truthy my then
    dictUpdate (dictUpdate (dictUpdate specs
      (env.safetyFields (pyStr my) (pyStr mk) (pyStr md)))
      (env.recallFields (pyStr my) (pyStr mk) (pyStr md)))
      (env.complaintFields (pyStr my) (pyStr mk) (pyStr md))
  else specs

/-- One decode result's contribution to `batch_specs` in `process_batch`:
skipped when the `VIN` key is absent or falsy
(`vin = result.get("VIN"); if not vin: continue`), otherwise
`batch_specs[vin] = specs`. -/
def processResult (env : LookupEnv) (acc : List (Val × List (String × Val)))
    (result : List (String × Val)) : List (Val × List (String × Val)) :=
  match dictGet result "VIN" with
  | none => acc
  | some vin =>
    if truthy vin then assocPut acc vin (resultSpecs env result) else acc

/-- The `process_batch` worker body of `enrich_database`: decode the batch,
build the per-vin spec dicts from the response, and flush them to the store
in one batched write when non-empty
(`if batch_specs: self.db.insert_nhtsa_enrichment_batch(batch_specs)`).
Threading, the progress counters and the returned length are elided; the
function returns the updated store. -/
def process_batch (env : LookupEnv) (db : DB) (batch_vins : List Val) : DB :=
  match decode_vins_batch env batch_vins with
  | none => db
  | some results =>
    let batch_specs := results.foldl (processResult env) []
    if batch_specs.isEmpty then db
    else insert_nhtsa_enrichment_batch db batch_specs

/-- The truthy `VIN` values of the decode response for a batch (empty when
no request is made or the lookup fails): exactly the vins that receive an
entry in `batch_specs`. -/
def respVins (env : LookupEnv) (vins : List Val) : List Val :=
  match decode_vins_batch env vins with
  | none => []
  | some results => (results.filterMap (fun r => dictGet r "VIN")).filter truthy

/-! ## The convergence loop of `CarScraper.run` (`DataAquisition.py`)

One round iterates over the "load more" buttons of the sub-sources
(`Config.CONTINUE_BUTTONS_XPATH`), skipping those already in
`unclickable_buttons`. For each remaining button the code runs a
`while retry_count < MAX_RETRIES` loop: `_click_button` returning `True`
sets `any_button_clicked` and breaks; `_click_button` returning `False`
— which it does for every failure it sees, a timeout or non-interactable
control as much as an absent one, since it catches all exceptions and
returns `False` — adds the button to `unclickable_buttons` and breaks;
only an exception escaping the ribbon handling increments `retry_count`
and retries, and running out of retries that way leaves the button
unmarked. After the button loop the captured rows are extracted and
persisted, and the run stops when no button was clicked in the round.
Connectivity faults (`sys.exit(1)`) and the extraction step are outside
the properties proved here and are not modelled. -/

/-- What one attempt at a sub-source's control does, as observed by the
round loop: `ok` (`_click_button` returns `True`), `failT`
(`_click_button` returns `False` for a transient reason: timeout, control
momentarily not interactable), `failD` (`_click_button` returns `False`
because the control is absent), `exn` (an exception escapes the ribbon
handling before the click helper finishes). `_click_button` itself cannot
distinguish `failT` from `failD`: both reach the loop as `False`. -/
inductive Outcome where
  | ok
  | failT
  | failD
  | exn
deriving DecidableEq

/-- A simulated sub-source: the schedule gives the outcome of its j-th
attempt, with every attempt beyond the schedule failing definitively (the
control is permanently absent); plus the per-run bookkeeping the loop
keeps for it (attempts consumed, membership in `unclickable_buttons`). -/
structure SubSource where
  schedule : List Outcome
  attempts : Nat
  exhausted : Bool
deriving DecidableEq

/-- Outcome of the j-th attempt at a control. -/
def outcomeAt (sched : List Outcome) (j : Nat) : Outcome :=
  sched.getD j Outcome.failD

/-- Result of the retry loop around one button in one round. -/
inductive ClickRes where
  | clicked
  | notClickable
  | gaveUp
deriving DecidableEq

/-- The `while retry_count < MAX_RETRIES` loop for one button:
a successful click breaks with `clicked`; a `False` from `_click_button`
breaks with `notClickable` (transient or definitive alike); an exception
consumes one retry; running out of retries yields `gaveUp`. Returns the
result and the new attempt counter. -/
def tryClicks (sched : List Outcome) (attempts retriesLeft : Nat) : ClickRes × Nat :=
  match retriesLeft with
  | 0 => (ClickRes.gaveUp, attempts)
  | r + 1 =>
    match outcomeAt sched attempts with
    | .ok => (ClickRes.clicked, attempts + 1)
    | .failT => (ClickRes.notClickable, attempts + 1)
    | .failD => (ClickRes.notClickable, attempts + 1)
    | .exn => tryClicks sched (attempts + 1) r

/-- One button's processing within a round: skipped entirely when already
in `unclickable_buttons`; `clicked` contributes to `any_button_clicked`;
`notClickable` adds the button to `unclickable_buttons` immediately;
`gaveUp` leaves it unmarked. -/
def stepButton (maxRetries : Nat) (b : SubSource) : SubSource × Bool :=
  if b.exhausted then (b, false)
  else
    let r := tryClicks b.schedule b.attempts maxRetries
    match r.1 with
    | .clicked => ({ b with attempts := r.2 }, true)
    | .notClickable => ({ b with attempts := r.2, exhausted := true }, false)
    | .gaveUp => ({ b with attempts := r.2 }, false)

/-- One round: the `for button_name, button_xpath in ...` loop, collecting
`any_button_clicked`. -/
def doRound (maxRetries : Nat) : List SubSource → List SubSource × Bool
  | [] => ([], false)
  | b :: rest =>
    let s := stepButton maxRetries b
    let r := doRound maxRetries rest
    (s.1 :: r.1, s.2 || r.2)

/-- Final state of a run of the round loop: the sub-sources' bookkeeping,
the number of productive rounds (iterations in which at least one button
was clicked) and the convergence flag — `true` mirrors the loop leaving
through `if not any_button_clicked: break` ("no more data to load"), the
only normal exit. -/
structure RunResult where
  buttons : List SubSource
  productiveRounds : Nat
  converged : Bool
deriving DecidableEq

/-- Config.MAX_RETRIES of the scraper. -/
def MAX_RETRIES : Nat := 3

/-- The `while True` round loop of `CarScraper.run`, with explicit fuel:
`none` means the fuel ran out before the loop converged. The Python loop
has no iteration bound, so termination statements are phrased as a
concrete fuel sufficing. -/
def runLoop (maxRetries : Nat) : Nat → List SubSource → Nat → Option RunResult
  | 0, _, _ => none
  | fuel + 1, bs, productive =>
    let r := doRound maxRetries bs
    if r.2 then runLoop maxRetries fuel r.1 (productive + 1)
    else some ⟨r.1, productive, true⟩

/-- A fresh sub-source whose control succeeds exactly `k` times and is
absent afterwards. -/
def freshUniform (k : Nat) : SubSource :=
  ⟨List.replicate k Outcome.ok, 0, false⟩

/-- Number of successful clicks a sub-source's control has reported. -/
def succCount (b : SubSource) : Nat :=
  ((List.range b.attempts).filter (fun j => outcomeAt b.schedule j == Outcome.ok)).length

/-- The history-table update of one row as a function of the payload. -/
def phApply (v : Val) (t : List PHRow) : HistPayload → List PHRow
  | .entries es => phFold v t es
  | _ => t

/-- The listing-history update of one row as a function of the payload. -/
def lhApply (v : Val) (t : List LHRow) : HistPayload → List LHRow
  | .entries es => lhFold v t es
  | _ => t

/-- The parsed `priceHistory` entry list of a row (empty unless the
payload parsed to a list). -/
def phEntriesOf (r : Row) : List HEntry :=
  match r.priceHistory with
  | .entries es => es
  | _ => []

/-- The parsed `listingHistory` entry list of a row. -/
def lhEntriesOf (r : Row) : List HEntry :=
  match r.listingHistory with
  | .entries es => es
  | _ => []

/-! ## Concrete scenario values used by the example theorems -/

def c5r1 : Row :=
  ⟨[("vin", Val.vstr "1FAKEC5VIN000001"), ("loaddate", Val.vstr "2024-01-01"),
    ("price", Val.vint 12000)], .absent, .absent⟩

def c5r2 : Row :=
  ⟨[("vin", Val.vstr "1FAKEC5VIN000001"), ("loaddate", Val.vstr "2024-01-01"),
    ("price", Val.vint 13000)], .absent, .absent⟩

def c5r3 : Row :=
  ⟨[("vin", Val.vstr "1FAKEC5VIN000001"), ("loaddate", Val.vstr "2024-01-02"),
    ("price", Val.vint 12500)], .absent, .absent⟩

def c6r1 : Row :=
  ⟨[("vin", Val.vstr "1FAKE000000000001"), ("loaddate", Val.vstr "2024-01-01"),
    ("price", Val.vint 12000)], .absent, .absent⟩

def c6r2 : Row :=
  ⟨[("vin", Val.vstr ""), ("loaddate", Val.vstr "2024-01-01"),
    ("price", Val.vint 9000)], .absent, .absent⟩

def c10row : Row :=
  ⟨[("vin", Val.vstr "1FAKEC10VIN00001"), ("loaddate", Val.vstr "2024-01-01")],
    .malformed, .notAList⟩

def c8nullEntry : HEntry := ⟨none, some (Val.vint 50000), some (Val.vint 12000), none⟩

def c8nullRow : Row :=
  ⟨[("vin", Val.vstr "1FAKEC8VIN000001"), ("loaddate", Val.vstr "2024-01-01")],
    .entries [c8nullEntry], .absent⟩

def c8keyedEntry : HEntry :=
  ⟨some (Val.vstr "2023-12-01"), some (Val.vint 50000), some (Val.vint 12000), none⟩

def c8keyedRow : Row :=
  ⟨[("vin", Val.vstr "1FAKEC8VIN000002"), ("loaddate", Val.vstr "2024-01-01")],
    .entries [c8keyedEntry], .entries [c8keyedEntry]⟩

def c7row : Row :=
  ⟨[("vin", Val.vstr "1FAKEC7VIN000001"), ("loaddate", Val.vstr "2024-01-01")],
    .absent, .absent⟩

def c7db : DB := (insert_rows DB.empty [c7row]).1

def c7batchEmpty : List (Val × List (String × Val)) :=
  [(Val.vstr "1FAKEC7VIN000001", [])]

def c7batchGood : List (Val × List (String × Val)) :=
  [(Val.vstr "1FAKEC7VIN000001", [("nhtsa_Make", Val.vstr "FORD")])]

def c1row : Row :=
  ⟨[("vin", Val.vstr "ab"), ("loaddate", Val.vstr "2024-01-01")], .absent, .absent⟩

def c1db : DB := (insert_rows DB.empty [c1row]).1

def c1envNone : LookupEnv :=
  ⟨fun _ => none, fun _ _ _ => [], fun _ _ _ => [], fun _ _ _ => []⟩

def c1respEnv : LookupEnv :=
  ⟨fun _ => some [[("VIN", Val.vstr "1FAKEVIN00000001")]],
    fun _ _ _ => [], fun _ _ _ => [], fun _ _ _ => []⟩

def c1vins : List Val := [Val.vstr "1FAKEVIN00000001", Val.vstr "1FAKEVIN00000002"]

def c2row : Row :=
  ⟨[("vin", Val.vstr "1F*KEMASKEDVIN01"), ("loaddate", Val.vstr "2024-01-01")],
    .absent, .absent⟩

def c2db : DB := (insert_rows DB.empty [c2row]).1

def c2envNone : LookupEnv :=
  ⟨fun _ => none, fun _ _ _ => [], fun _ _ _ => [], fun _ _ _ => []⟩

def c3init : List SubSource := List.replicate 3 (freshUniform 2)

def c3final : RunResult :=
  ⟨List.replicate 3 ⟨List.replicate 2 Outcome.ok, 3, true⟩, 2, true⟩

def c4btnT : SubSource := ⟨[Outcome.failT, Outcome.ok], 0, false⟩

def c4btnF : SubSource := ⟨[Outcome.failD], 0, false⟩

def c4btnEx : SubSource := ⟨[Outcome.ok], 0, true⟩

/-! ## Store lemmas -/

theorem beqv_comm {α : Type u} [BEq α] [LawfulBEq α] (a b : α) : (a == b) = (b == a) := by
  by_cases h : a = b
  · simp [h]
  · rw [beq_eq_false_iff_ne.mpr h, beq_eq_false_iff_ne.mpr (Ne.symm h)]

theorem rowKey_some_elim {row : Row} {v d : Val} (h : rowKey row = some (v, d)) :
    dictGet row.cells "vin" = some v ∧ dictGet row.cells "loaddate" = some d ∧
      (truthy v && truthy d) = true := by
  unfold rowKey at h
  cases hv : dictGet row.cells "vin" with
  | none => rw [hv] at h; exact absurd h (by simp)
  | some vv =>
    cases hd : dictGet row.cells "loaddate" with
    | none => rw [hv, hd] at h; exact absurd h (by simp)
    | some dd =>
      rw [hv, hd] at h
      simp only at h
      by_cases ht : (truthy vv && truthy dd) = true
      · rw [if_pos ht] at h
        simp only [Option.some.injEq, Prod.mk.injEq] at h
        obtain ⟨rfl, rfl⟩ := h
        exact ⟨rfl, rfl, ht⟩
      · rw [if_neg ht] at h; exact absurd h (by simp)

theorem rowKey_rowValid {row : Row} {v d : Val} (h : rowKey row = some (v, d)) :
    rowValid row = true := by
  obtain ⟨hv, hd, ht⟩ := rowKey_some_elim h
  simp [rowValid, hv, hd, truthyOpt, Bool.and_eq_true] at *
  exact ht

theorem processRow_valid {row : Row} {v d : Val} (db : DB)
    (h : rowKey row = some (v, d)) :
    processRow db row =
      ({ listings :=
           listingsReplace db.listings ⟨v, d, listingColumns.map (dictGet row.cells)⟩,
         price_history := phApply v db.price_history row.priceHistory,
         listing_history := lhApply v db.listing_history row.listingHistory,
         nhtsa_enrichment := db.nhtsa_enrichment }, 1) := by
  obtain ⟨hv, hd, ht⟩ := rowKey_some_elim h
  unfold processRow
  rw [hv, hd]
  simp only
  rw [if_pos ht]
  cases hph : row.priceHistory <;> cases hlh : row.listingHistory <;>
    simp [phApply, lhApply]

theorem processRow_invalid {row : Row} (db : DB) (h : rowValid row = false) :
    processRow db row = (db, 0) := by
  unfold processRow
  cases hv : dictGet row.cells "vin" with
  | none => rfl
  | some vv =>
    cases hd : dictGet row.cells "loaddate" with
    | none => rfl
    | some dd =>
      have ht : (truthy vv && truthy dd) = false := by
        unfold rowValid at h
        rw [hv, hd] at h
        simpa [truthyOpt] using h
      simp only
      rw [if_neg (by simp [ht])]

theorem processRow_snd (db : DB) (row : Row) :
    (processRow db row).2 = if rowValid row then 1 else 0 := by
  by_cases h : rowValid row = true
  · rw [if_pos h]
    unfold rowValid at h
    cases hv : dictGet row.cells "vin" with
    | none => rw [hv] at h; simp [truthyOpt] at h
    | some vv =>
      cases hd : dictGet row.cells "loaddate" with
      | none => rw [hv, hd] at h; simp [truthyOpt] at h
      | some dd =>
        rw [hv, hd] at h
        simp only [truthyOpt] at h
        have hk : rowKey row = some (vv, dd) := by
          unfold rowKey
          rw [hv, hd]
          simp only
          rw [if_pos h]
        rw [processRow_valid db hk]
  · rw [if_neg h, processRow_invalid db (Bool.not_eq_true _ ▸ h)]

theorem insert_rows_nil (db : DB) : insert_rows db [] = (db, 0) := rfl

theorem insert_rows_shift (rows : List Row) : ∀ (db : DB) (n : Nat),
    rows.foldl (fun acc row =>
        let r := processRow acc.1 row
        (r.1, acc.2 + r.2)) (db, n)
      = ((insert_rows db rows).1, n + (insert_rows db rows).2) := by
  induction rows with
  | nil => intro db n; simp [insert_rows]
  | cons r rs ih =>
    intro db n
    simp only [insert_rows, List.foldl_cons]
    rw [ih ((processRow db r).1) (n + (processRow db r).2),
        ih ((processRow db r).1) (0 + (processRow db r).2)]
    simp only [Prod.mk.injEq]
    exact ⟨by trivial, by omega⟩

theorem insert_rows_cons (db : DB) (r : Row) (rs : List Row) :
    insert_rows db (r :: rs) =
      ((insert_rows (processRow db r).1 rs).1,
        (processRow db r).2 + (insert_rows (processRow db r).1 rs).2) := by
  unfold insert_rows
  rw [List.foldl_cons]
  have := insert_rows_shift rs (processRow db r).1 (0 + (processRow db r).2)
  simp only [insert_rows] at this
  rw [this]
  simp

theorem insert_rows_count (db : DB) (rows : List Row) :
    (insert_rows db rows).2 = (rows.filter rowValid).length := by
  induction rows generalizing db with
  | nil => rfl
  | cons r rs ih =>
    rw [insert_rows_cons, ih, processRow_snd]
    by_cases h : rowValid r = true
    · simp [h, List.filter_cons, Nat.add_comm]
    · simp [Bool.not_eq_true _ ▸ h, List.filter_cons]

theorem filter_listingsReplace_self (t : List Listing) (L : Listing) :
    (listingsReplace t L).filter
      (fun x => x.vin == L.vin && x.loaddate == L.loaddate) = [L] := by
  unfold listingsReplace
  rw [List.filter_append, List.filter_filter]
  have h1 : t.filter (fun x =>
      (x.vin == L.vin && x.loaddate == L.loaddate) &&
        !(x.vin == L.vin && x.loaddate == L.loaddate)) = [] := by
    apply List.filter_eq_nil_iff.2
    intro a _
    simp [Bool.and_not_self]
  rw [h1]
  simp

theorem filter_listingsReplace_key (t : List Listing) (v d : Val)
    (vals : List (Option Val)) :
    (listingsReplace t ⟨v, d, vals⟩).filter (fun x => x.vin == v && x.loaddate == d)
      = [⟨v, d, vals⟩] :=
  filter_listingsReplace_self t ⟨v, d, vals⟩

theorem filter_listingsReplace_ne (t : List Listing) (L : Listing) (v d : Val)
    (h : (L.vin == v && L.loaddate == d) = false) :
    (listingsReplace t L).filter (fun x => x.vin == v && x.loaddate == d)
      = t.filter (fun x => x.vin == v && x.loaddate == d) := by
  unfold listingsReplace
  rw [List.filter_append]
  have h1 : List.filter (fun x => x.vin == v && x.loaddate == d) [L] = [] := by
    simp [List.filter_cons, h]
  rw [h1, List.append_nil, List.filter_filter]
  apply List.filter_congr
  intro x _
  by_cases hx : (x.vin == v && x.loaddate == d) = true
  · obtain ⟨hxv, hxd⟩ := Bool.and_eq_true _ _ ▸ hx
    have hL : (x.vin == L.vin && x.loaddate == L.loaddate) = false := by
      rw [eq_of_beq hxv, eq_of_beq hxd, beqv_comm v L.vin, beqv_comm d L.loaddate]
      exact h
    rw [hx, hL]
    rfl
  · rw [Bool.not_eq_true] at hx
    rw [hx]
    rfl

/-! ## Enrichment-table lemmas -/

theorem enr_batch_tables (batch : List (Val × List (String × Val))) :
    ∀ db : DB,
      (insert_nhtsa_enrichment_batch db batch).listings = db.listings ∧
      (insert_nhtsa_enrichment_batch db batch).price_history = db.price_history ∧
      (insert_nhtsa_enrichment_batch db batch).listing_history = db.listing_history := by
  induction batch with
  | nil => intro db; exact ⟨rfl, rfl, rfl⟩
  | cons p rest ih =>
    intro db
    unfold insert_nhtsa_enrichment_batch at *
    rw [List.foldl_cons]
    by_cases hp : p.2.isEmpty = true
    · rw [if_pos hp]; exact ih db
    · rw [if_neg hp]; exact ih _

theorem enrReplace_any (t : List EnrRow) (r : EnrRow) (v : Val) :
    (enrReplace t r).any (fun e => e.vin == v)
      = (t.any (fun e => e.vin == v) || (r.vin == v)) := by
  unfold enrReplace
  rw [List.any_append]
  have hr : List.any [r] (fun e => e.vin == v) = (r.vin == v) := by simp
  rw [hr]
  by_cases hv : r.vin = v
  · subst hv
    simp
  · have h1 : (r.vin == v) = false := beq_eq_false_iff_ne.mpr hv
    rw [h1, Bool.or_false, Bool.or_false]
    induction t with
    | nil => rfl
    | cons x xs ihx =>
      rw [List.filter_cons]
      by_cases hx : x.vin = r.vin
      · have : (!(x.vin == r.vin)) = false := by simp [hx]
        rw [this]
        simp only [Bool.false_eq_true, if_false]
        rw [ihx, List.any_cons]
        have : (x.vin == v) = false := by rw [hx]; exact h1
        rw [this, Bool.false_or]
      · have : (!(x.vin == r.vin)) = true := by simp [hx]
        rw [this]
        simp only [if_true]
        rw [List.any_cons, List.any_cons, ihx]

theorem enrHasVin_batch (batch : List (Val × List (String × Val))) :
    ∀ (db : DB) (v : Val),
      enrHasVin (insert_nhtsa_enrichment_batch db batch) v
        = (enrHasVin db v || batch.any (fun p => p.1 == v && !p.2.isEmpty)) := by
  induction batch with
  | nil => intro db v; simp [insert_nhtsa_enrichment_batch]
  | cons p rest ih =>
    intro db v
    unfold insert_nhtsa_enrichment_batch at *
    rw [List.foldl_cons, List.any_cons]
    by_cases hp : p.2.isEmpty = true
    · rw [if_pos hp, ih db v, hp]
      simp
    · rw [if_neg hp]
      rw [ih _ v]
      have hstep : enrHasVin { db with
          nhtsa_enrichment := enrReplace db.nhtsa_enrichment ⟨p.1, p.2⟩ } v
          = (enrHasVin db v || (p.1 == v)) := by
        unfold enrHasVin
        exact enrReplace_any db.nhtsa_enrichment ⟨p.1, p.2⟩ v
      rw [hstep]
      rw [Bool.not_eq_true] at hp
      rw [hp]
      simp [Bool.or_assoc]

theorem mem_backlog {db : DB} {v : Val} :
    v ∈ get_vins_for_enrichment db ↔
      ((∃ l ∈ db.listings, l.vin = v) ∧ enrHasVin db v = false) := by
  unfold get_vins_for_enrichment enrHasVin
  rw [List.mem_filter, List.mem_dedup, List.mem_map]
  constructor
  · rintro ⟨⟨l, hl, hlv⟩, hb⟩
    refine ⟨⟨l, hl, hlv⟩, ?_⟩
    cases he : db.nhtsa_enrichment.any (fun e => e.vin == v) with
    | false => rfl
    | true => rw [he] at hb; exact absurd hb (by simp)
  · rintro ⟨⟨l, hl, hlv⟩, he⟩
    exact ⟨⟨l, hl, hlv⟩, by rw [he]; rfl⟩

/-! ## History-table (INSERT OR IGNORE) lemmas -/

theorem sqlEq_self {o : Option Val} (h : o.isSome = true) : sqlEq o o = true := by
  obtain ⟨a, rfl⟩ := Option.isSome_iff_exists.mp h
  simp [sqlEq]

theorem phConflict_self (v : Val) (e : HEntry)
    (h1 : e.hdate.isSome = true) (h2 : e.price.isSome = true) :
    phConflict (mkPH v e) (mkPH v e) = true := by
  unfold phConflict mkPH
  simp [sqlEq_self h1, sqlEq_self h2]

theorem lhConflict_self (v : Val) (e : HEntry) (h1 : e.hdate.isSome = true)
    (h2 : e.price.isSome = true) (h3 : e.mileage.isSome = true) :
    lhConflict (mkLH v e) (mkLH v e) = true := by
  unfold lhConflict mkLH
  simp [sqlEq_self h1, sqlEq_self h2, sqlEq_self h3]

theorem phInsert_suffix (t : List PHRow) (r : PHRow) :
    ∃ u, phInsert t r = t ++ u := by
  unfold phInsert
  by_cases h : t.any (fun x => phConflict x r) = true
  · exact ⟨[], by rw [if_pos h, List.append_nil]⟩
  · exact ⟨[r], by rw [if_neg h]⟩

theorem lhInsert_suffix (t : List LHRow) (r : LHRow) :
    ∃ u, lhInsert t r = t ++ u := by
  unfold lhInsert
  by_cases h : t.any (fun x => lhConflict x r) = true
  · exact ⟨[], by rw [if_pos h, List.append_nil]⟩
  · exact ⟨[r], by rw [if_neg h]⟩

theorem phFold_suffix (v : Val) (es : List HEntry) :
    ∀ t, ∃ u, phFold v t es = t ++ u := by
  induction es with
  | nil => intro t; exact ⟨[], by simp [phFold]⟩
  | cons e es ih =>
    intro t
    obtain ⟨u1, hu1⟩ := phInsert_suffix t (mkPH v e)
    obtain ⟨u2, hu2⟩ := ih (phInsert t (mkPH v e))
    refine ⟨u1 ++ u2, ?_⟩
    unfold phFold at *
    rw [List.foldl_cons, hu2, hu1, List.append_assoc]

theorem lhFold_suffix (v : Val) (es : List HEntry) :
    ∀ t, ∃ u, lhFold v t es = t ++ u := by
  induction es with
  | nil => intro t; exact ⟨[], by simp [lhFold]⟩
  | cons e es ih =>
    intro t
    obtain ⟨u1, hu1⟩ := lhInsert_suffix t (mkLH v e)
    obtain ⟨u2, hu2⟩ := ih (lhInsert t (mkLH v e))
    refine ⟨u1 ++ u2, ?_⟩
    unfold lhFold at *
    rw [List.foldl_cons, hu2, hu1, List.append_assoc]

theorem phInsert_witness (t : List PHRow) {r : PHRow} (h : phConflict r r = true) :
    ∃ x ∈ phInsert t r, phConflict x r = true := by
  unfold phInsert
  by_cases ha : t.any (fun x => phConflict x r) = true
  · rw [if_pos ha]
    exact List.any_eq_true.mp ha
  · rw [if_neg ha]
    exact ⟨r, List.mem_append_right _ (List.mem_singleton.mpr rfl), h⟩

theorem lhInsert_witness (t : List LHRow) {r : LHRow} (h : lhConflict r r = true) :
    ∃ x ∈ lhInsert t r, lhConflict x r = true := by
  unfold lhInsert
  by_cases ha : t.any (fun x => lhConflict x r) = true
  · rw [if_pos ha]
    exact List.any_eq_true.mp ha
  · rw [if_neg ha]
    exact ⟨r, List.mem_append_right _ (List.mem_singleton.mpr rfl), h⟩

theorem phFold_witness (v : Val) (es : List HEntry) :
    ∀ t, ∀ e ∈ es, phConflict (mkPH v e) (mkPH v e) = true →
      ∃ x ∈ phFold v t es, phConflict x (mkPH v e) = true := by
  induction es with
  | nil => intro t e he; exact absurd he (List.not_mem_nil e)
  | cons e0 es ih =>
    intro t e he hself
    unfold phFold
    rw [List.foldl_cons]
    rcases List.mem_cons.mp he with he0 | hes
    · subst he0
      obtain ⟨x, hx, hc⟩ := phInsert_witness t hself
      obtain ⟨u, hu⟩ := phFold_suffix v es (phInsert t (mkPH v e))
      exact ⟨x, by unfold phFold at hu; rw [hu]; exact List.mem_append_left _ hx, hc⟩
    · exact ih (phInsert t (mkPH v e0)) e hes hself

theorem lhFold_witness (v : Val) (es : List HEntry) :
    ∀ t, ∀ e ∈ es, lhConflict (mkLH v e) (mkLH v e) = true →
      ∃ x ∈ lhFold v t es, lhConflict x (mkLH v e) = true := by
  induction es with
  | nil => intro t e he; exact absurd he (List.not_mem_nil e)
  | cons e0 es ih =>
    intro t e he hself
    unfold lhFold
    rw [List.foldl_cons]
    rcases List.mem_cons.mp he with he0 | hes
    · subst he0
      obtain ⟨x, hx, hc⟩ := lhInsert_witness t hself
      obtain ⟨u, hu⟩ := lhFold_suffix v es (lhInsert t (mkLH v e))
      exact ⟨x, by unfold lhFold at hu; rw [hu]; exact List.mem_append_left _ hx, hc⟩
    · exact ih (lhInsert t (mkLH v e0)) e hes hself

theorem phFold_idem (v : Val) (es : List HEntry) :
    ∀ t, (∀ e ∈ es, ∃ x ∈ t, phConflict x (mkPH v e) = true) →
      phFold v t es = t := by
  induction es with
  | nil => intro t _; rfl
  | cons e0 es ih =>
    intro t hw
    unfold phFold
    rw [List.foldl_cons]
    have h0 : phInsert t (mkPH v e0) = t := by
      unfold phInsert
      rw [if_pos (List.any_eq_true.mpr (hw e0 (List.mem_cons_self e0 es)))]
    rw [h0]
    exact ih t (fun e he => hw e (List.mem_cons_of_mem e0 he))

theorem lhFold_idem (v : Val) (es : List HEntry) :
    ∀ t, (∀ e ∈ es, ∃ x ∈ t, lhConflict x (mkLH v e) = true) →
      lhFold v t es = t := by
  induction es with
  | nil => intro t _; rfl
  | cons e0 es ih =>
    intro t hw
    unfold lhFold
    rw [List.foldl_cons]
    have h0 : lhInsert t (mkLH v e0) = t := by
      unfold lhInsert
      rw [if_pos (List.any_eq_true.mpr (hw e0 (List.mem_cons_self e0 es)))]
    rw [h0]
    exact ih t (fun e he => hw e (List.mem_cons_of_mem e0 he))

theorem phFold_twice (v : Val) (es : List HEntry) (t : List PHRow)
    (hself : ∀ e ∈ es, phConflict (mkPH v e) (mkPH v e) = true) :
    phFold v (phFold v t es) es = phFold v t es :=
  phFold_idem v es _ (fun e he => phFold_witness v es t e he (hself e he))

theorem lhFold_twice (v : Val) (es : List HEntry) (t : List LHRow)
    (hself : ∀ e ∈ es, lhConflict (mkLH v e) (mkLH v e) = true) :
    lhFold v (lhFold v t es) es = lhFold v t es :=
  lhFold_idem v es _ (fun e he => lhFold_witness v es t e he (hself e he))

/-! ## Driver-loop lemmas -/

theorem stepButton_exhausted {m : Nat} {b : SubSource} (h : b.exhausted = true) :
    stepButton m b = (b, false) := by
  unfold stepButton
  rw [if_pos h]

theorem tryClicks_exn {sched : List Outcome} {a : Nat} (r : Nat)
    (h : outcomeAt sched a = Outcome.exn) :
    tryClicks sched a (r + 1) = tryClicks sched (a + 1) r := by
  conv_lhs => unfold tryClicks
  rw [h]

theorem stepButton_fail {m : Nat} {b : SubSource} (hm : m ≠ 0)
    (hex : b.exhausted = false)
    (h : outcomeAt b.schedule b.attempts = Outcome.failT ∨
         outcomeAt b.schedule b.attempts = Outcome.failD) :
    stepButton m b = ({ b with attempts := b.attempts + 1, exhausted := true }, false) := by
  obtain ⟨m', rfl⟩ : ∃ m', m = m' + 1 := ⟨m - 1, by omega⟩
  unfold stepButton
  rw [if_neg (by simp [hex])]
  unfold tryClicks
  rcases h with h | h <;> rw [h]

theorem doRound_exh_get (m : Nat) :
    ∀ (bs : List SubSource) (i : Nat) (b0 : SubSource),
      bs[i]? = some b0 → b0.exhausted = true → (doRound m bs).1[i]? = some b0 := by
  intro bs
  induction bs with
  | nil => intro i b0 h _; simp at h
  | cons b rest ih =>
    intro i b0 h hex
    unfold doRound
    cases i with
    | zero =>
      rw [List.getElem?_cons_zero] at h
      have hb : b = b0 := Option.some.inj h
      subst hb
      simp only
      rw [List.getElem?_cons_zero, stepButton_exhausted hex]
    | succ i =>
      rw [List.getElem?_cons_succ] at h
      simp only
      rw [List.getElem?_cons_succ]
      exact ih i b0 h hex

theorem runLoop_exh (m : Nat) :
    ∀ (fuel : Nat) (bs : List SubSource) (p : Nat) (res : RunResult),
      runLoop m fuel bs p = some res →
      ∀ (i : Nat) (b0 : SubSource), bs[i]? = some b0 → b0.exhausted = true →
        res.buttons[i]? = some b0 := by
  intro fuel
  induction fuel with
  | zero => intro bs p res h; exact absurd h (by simp [runLoop])
  | succ fuel ih =>
    intro bs p res h i b0 hb hex
    unfold runLoop at h
    by_cases hr : (doRound m bs).2 = true
    · rw [if_pos hr] at h
      exact ih _ _ _ h i b0 (doRound_exh_get m bs i b0 hb hex) hex
    · rw [if_neg hr] at h
      have hres : res = ⟨(doRound m bs).1, p, true⟩ := (Option.some.inj h).symm
      subst hres
      exact doRound_exh_get m bs i b0 hb hex

theorem outcomeAt_replicate_ok (k j : Nat) :
    outcomeAt (List.replicate k Outcome.ok) j
      = (if j < k then Outcome.ok else Outcome.failD) := by
  unfold outcomeAt
  rw [List.getD_eq_getElem?_getD, List.getElem?_replicate]
  by_cases h : j < k
  · rw [if_pos h, if_pos h]; rfl
  · rw [if_neg h, if_neg h]; rfl

theorem stepButton_uniform (m k r : Nat) (hm : m ≠ 0) :
    stepButton m ⟨List.replicate k Outcome.ok, r, false⟩
      = (if r < k then ((⟨List.replicate k Outcome.ok, r + 1, false⟩ : SubSource), true)
         else ((⟨List.replicate k Outcome.ok, r + 1, true⟩ : SubSource), false)) := by
  obtain ⟨m', rfl⟩ : ∃ m', m = m' + 1 := ⟨m - 1, by omega⟩
  by_cases h : r < k
  · rw [if_pos h]
    unfold stepButton
    rw [if_neg (by simp)]
    unfold tryClicks
    rw [outcomeAt_replicate_ok, if_pos h]
  · rw [if_neg h]
    unfold stepButton
    rw [if_neg (by simp)]
    unfold tryClicks
    rw [outcomeAt_replicate_ok, if_neg h]

theorem doRound_replicate (m : Nat) (b : SubSource) :
    ∀ n, n ≠ 0 → doRound m (List.replicate n b)
      = (List.replicate n (stepButton m b).1, (stepButton m b).2) := by
  intro n
  induction n with
  | zero => intro h; exact absurd rfl h
  | succ n ih =>
    intro _
    rw [List.replicate_succ]
    unfold doRound
    by_cases hn : n = 0
    · subst hn
      simp [doRound]
    · rw [ih hn]
      simp [List.replicate_succ]

theorem runLoop_uniform (m n : Nat) (hm : m ≠ 0) (hn : n ≠ 0) :
    ∀ (j r p k : Nat), r + j = k →
      runLoop m (j + 1) (List.replicate n ⟨List.replicate k Outcome.ok, r, false⟩) p
        = some ⟨List.replicate n ⟨List.replicate k Outcome.ok, k + 1, true⟩, p + j, true⟩ := by
  intro j
  induction j with
  | zero =>
    intro r p k hr
    have hrk : r = k := by omega
    subst hrk
    unfold runLoop
    rw [doRound_replicate m _ n hn, stepButton_uniform m r r hm,
      if_neg (Nat.lt_irrefl r)]
    simp
  | succ j ih =>
    intro r p k hr
    have hrk : r < k := by omega
    unfold runLoop
    rw [doRound_replicate m _ n hn, stepButton_uniform m k r hm, if_pos hrk]
    simp only [if_true]
    have := ih (r + 1) (p + 1) k (by omega)
    rw [this]
    have hp : p + 1 + j = p + (j + 1) := by omega
    rw [hp]

theorem any_eq_of {α : Type u} (l : List α) (p q : α → Bool)
    (h : ∀ x ∈ l, p x = q x) : l.any p = l.any q := by
  induction l with
  | nil => rfl
  | cons x xs ih =>
    rw [List.any_cons, List.any_cons, h x (List.mem_cons_self x xs),
      ih (fun y hy => h y (List.mem_cons_of_mem x hy))]

theorem runLoop_fuel_mono (m : Nat) :
    ∀ (fuel fuel' : Nat) (bs : List SubSource) (p : Nat) (res : RunResult),
      runLoop m fuel bs p = some res → fuel ≤ fuel' →
      runLoop m fuel' bs p = some res := by
  intro fuel
  induction fuel with
  | zero => intro fuel' bs p res h; exact absurd h (by simp [runLoop])
  | succ fuel ih =>
    intro fuel' bs p res h hle
    obtain ⟨f', rfl⟩ : ∃ f', fuel' = f' + 1 := ⟨fuel' - 1, by omega⟩
    unfold runLoop at h ⊢
    by_cases hr : (doRound m bs).2 = true
    · rw [if_pos hr] at h ⊢
      exact ih f' _ _ _ h (by omega)
    · rw [if_neg hr] at h ⊢
      exact h

/-! ## Enrichment-engine (`process_batch`) lemmas -/

theorem extract_specs_ne_nil (result : List (String × Val)) :
    extract_specs_from_results result ≠ [] := by
  unfold extract_specs_from_results
  rw [Ne, List.map_eq_nil_iff]
  simp [selected_fields]

theorem dictUpdate_ne_nil {d : List (String × Val)} (hd : d ≠ [])
    (new : List (String × Val)) : dictUpdate d new ≠ [] := by
  unfold dictUpdate
  cases new with
  | nil =>
    simp only [List.any_nil, Bool.not_false, List.append_nil, List.filter_true]
    exact hd
  | cons n ns =>
    rw [Ne, List.append_eq_nil]
    simp

theorem resultSpecs_ne_nil (env : LookupEnv) (result : List (String × Val)) :
    resultSpecs env result ≠ [] := by
  simp only [resultSpecs]
  split
  · exact dictUpdate_ne_nil (dictUpdate_ne_nil
      (dictUpdate_ne_nil (extract_specs_ne_nil result) _) _) _
  · exact extract_specs_ne_nil result

theorem any_map_put (acc : List (Val × List (String × Val))) (k : Val)
    (val : List (String × Val)) (v : Val) :
    (acc.map (fun p => if p.1 == k then (k, val) else p)).any (fun p => p.1 == v)
      = acc.any (fun p => p.1 == v) := by
  induction acc with
  | nil => rfl
  | cons p ps ih =>
    rw [List.map_cons, List.any_cons, List.any_cons, ih]
    by_cases hp : (p.1 == k) = true
    · rw [if_pos hp, eq_of_beq hp]
    · rw [if_neg hp]

theorem assocPut_any_key (acc : List (Val × List (String × Val))) (k : Val)
    (val : List (String × Val)) (v : Val) :
    (assocPut acc k val).any (fun p => p.1 == v)
      = (acc.any (fun p => p.1 == v) || (k == v)) := by
  unfold assocPut
  by_cases h : acc.any (fun p => p.1 == k) = true
  · rw [if_pos h, any_map_put]
    by_cases hkv : (k == v) = true
    · obtain ⟨p, hp, hpk⟩ := List.any_eq_true.mp h
      have hv : acc.any (fun p => p.1 == v) = true :=
        List.any_eq_true.mpr ⟨p, hp, by rw [eq_of_beq hpk]; exact hkv⟩
      rw [hv, hkv]
      rfl
    · have hkv' : (k == v) = false := by
        cases hb : (k == v) with
        | false => rfl
        | true => exact absurd hb hkv
      rw [hkv', Bool.or_false]
  · rw [if_neg h, List.any_append]
    simp

theorem assocPut_good {acc : List (Val × List (String × Val))}
    (hg : ∀ p ∈ acc, p.2 ≠ []) {k : Val} {val : List (String × Val)}
    (hval : val ≠ []) : ∀ p ∈ assocPut acc k val, p.2 ≠ [] := by
  unfold assocPut
  by_cases h : acc.any (fun p => p.1 == k) = true
  · rw [if_pos h]
    intro p hp
    obtain ⟨q, hq, hqp⟩ := List.mem_map.mp hp
    by_cases hqk : (q.1 == k) = true
    · rw [if_pos hqk] at hqp
      rw [← hqp]
      exact hval
    · rw [if_neg hqk] at hqp
      rw [← hqp]
      exact hg q hq
  · rw [if_neg h]
    intro p hp
    rcases List.mem_append.mp hp with hp1 | hp2
    · exact hg p hp1
    · rw [List.mem_singleton.mp hp2]
      exact hval

theorem foldl_processResult (env : LookupEnv) (results : List (List (String × Val))) :
    ∀ acc, (∀ p ∈ acc, p.2 ≠ []) →
      (∀ p ∈ results.foldl (processResult env) acc, p.2 ≠ []) ∧
      (∀ v : Val, (results.foldl (processResult env) acc).any (fun p => p.1 == v)
        = (acc.any (fun p => p.1 == v) ||
            ((results.filterMap (fun r => dictGet r "VIN")).filter truthy).any
              (fun w => w == v))) := by
  induction results with
  | nil =>
    intro acc hg
    exact ⟨hg, fun v => by simp⟩
  | cons r rs ih =>
    intro acc hg
    rw [List.foldl_cons]
    cases hr : dictGet r "VIN" with
    | none =>
      have hpr : processResult env acc r = acc := by
        unfold processResult
        rw [hr]
      rw [hpr, List.filterMap_cons_none (f := fun r => dictGet r "VIN") hr]
      exact ih acc hg
    | some w =>
      by_cases hw : truthy w = true
      · have hpr : processResult env acc r = assocPut acc w (resultSpecs env r) := by
          unfold processResult
          rw [hr]
          simp only
          rw [if_pos hw]
        rw [hpr, List.filterMap_cons_some (f := fun r => dictGet r "VIN") hr]
        have hg' := assocPut_good hg (resultSpecs_ne_nil env r) (k := w)
        obtain ⟨g1, g2⟩ := ih _ hg'
        refine ⟨g1, fun v => ?_⟩
        rw [g2 v, assocPut_any_key, List.filter_cons, if_pos hw, List.any_cons,
          Bool.or_assoc]
      · have hw' : truthy w = false := by
          cases hb : truthy w with
          | false => rfl
          | true => exact absurd hb hw
        have hpr : processResult env acc r = acc := by
          unfold processResult
          rw [hr]
          simp only
          rw [if_neg (by simp [hw'])]
        rw [hpr, List.filterMap_cons_some (f := fun r => dictGet r "VIN") hr, List.filter_cons, if_neg (by simp [hw'])]
        exact ih acc hg

theorem process_batch_hasVin (env : LookupEnv) (db : DB) (batch : List Val)
    (v : Val) :
    enrHasVin (process_batch env db batch) v
      = (enrHasVin db v || (respVins env batch).any (fun w => w == v)) := by
  unfold process_batch respVins
  cases hd : decode_vins_batch env batch with
  | none => simp
  | some results =>
    simp only
    obtain ⟨g1, g2⟩ := foldl_processResult env results [] (by simp)
    by_cases hbs : (results.foldl (processResult env) []).isEmpty = true
    · rw [if_pos hbs]
      have hnil : results.foldl (processResult env) [] = [] := List.isEmpty_iff.mp hbs
      have hv := g2 v
      rw [hnil] at hv
      simp only [List.any_nil, Bool.false_or] at hv
      rw [← hv, Bool.or_false]
    · rw [if_neg hbs]
      rw [enrHasVin_batch]
      have hsame : (results.foldl (processResult env) []).any
            (fun p => p.1 == v && !p.2.isEmpty)
          = (results.foldl (processResult env) []).any (fun p => p.1 == v) := by
        apply any_eq_of
        intro p hp
        have : p.2.isEmpty = false := by
          cases hb : p.2 with
          | nil => exact absurd hb (g1 p hp)
          | cons a l => rfl
        rw [this]
        simp
      rw [hsame, g2 v]
      simp

theorem decode_some_elim {env : LookupEnv} {batch : List Val}
    {results : List (List (String × Val))}
    (hd : decode_vins_batch env batch = some results) :
    env.decodeResults (validPayload batch) = some results := by
  unfold decode_vins_batch at hd
  by_cases hv : (validPayload batch).isEmpty = true
  · rw [if_pos hv] at hd
    exact absurd hd (by simp)
  · rw [if_neg hv] at hd
    cases he : env.decodeResults (validPayload batch) with
    | none => rw [he] at hd; exact absurd hd (by simp)
    | some rs =>
      rw [he] at hd
      simp only at hd
      by_cases hrs : rs.isEmpty = true
      · rw [if_pos hrs] at hd
        exact absurd hd (by simp)
      · rw [if_neg hrs] at hd
        exact hd

theorem respVins_valid {env : LookupEnv} {batch : List Val}
    (hecho : ∀ payload results, env.decodeResults payload = some results →
      ∀ r ∈ results, ∀ w : Val, dictGet r "VIN" = some w → truthy w = true →
        is_valid_vin_val w = true) :
    ∀ w ∈ respVins env batch, is_valid_vin_val w = true := by
  intro w hw
  unfold respVins at hw
  cases hd : decode_vins_batch env batch with
  | none => rw [hd] at hw; simp at hw
  | some results =>
    rw [hd] at hw
    simp only at hw
    rw [List.mem_filter] at hw
    obtain ⟨hw1, hwt⟩ := hw
    obtain ⟨r, hr, hrw⟩ := List.mem_filterMap.mp hw1
    exact hecho _ _ (decode_some_elim hd) r hr w hrw hwt

/-! ## Assorted helper lemmas -/

theorem insert_rows_single (db : DB) (r : Row) :
    insert_rows db [r] = processRow db r := by
  unfold insert_rows
  rw [List.foldl_cons, List.foldl_nil]
  simp

theorem rowValid_rowKey {row : Row} (h : rowValid row = true) :
    ∃ v d, rowKey row = some (v, d) := by
  unfold rowValid at h
  cases hv : dictGet row.cells "vin" with
  | none => rw [hv] at h; simp [truthyOpt] at h
  | some vv =>
    cases hd : dictGet row.cells "loaddate" with
    | none => rw [hv, hd] at h; simp [truthyOpt] at h
    | some dd =>
      rw [hv, hd] at h
      simp only [truthyOpt] at h
      refine ⟨vv, dd, ?_⟩
      unfold rowKey
      rw [hv, hd]
      simp only
      rw [if_pos h]

theorem processRow_suffix (db : DB) (r : Row) :
    (∃ u, (processRow db r).1.price_history = db.price_history ++ u) ∧
    (∃ u, (processRow db r).1.listing_history = db.listing_history ++ u) := by
  by_cases h : rowValid r = true
  · obtain ⟨v, d, hk⟩ := rowValid_rowKey h
    rw [processRow_valid db hk]
    constructor
    · cases hp : r.priceHistory with
      | entries es => exact phFold_suffix v es db.price_history
      | absent => exact ⟨[], by simp [phApply]⟩
      | malformed => exact ⟨[], by simp [phApply]⟩
      | notAList => exact ⟨[], by simp [phApply]⟩
    · cases hp : r.listingHistory with
      | entries es => exact lhFold_suffix v es db.listing_history
      | absent => exact ⟨[], by simp [lhApply]⟩
      | malformed => exact ⟨[], by simp [lhApply]⟩
      | notAList => exact ⟨[], by simp [lhApply]⟩
  · rw [processRow_invalid db (by cases hb : rowValid r with
      | false => rfl
      | true => exact absurd hb h)]
    exact ⟨⟨[], by simp⟩, ⟨[], by simp⟩⟩

theorem insert_rows_suffix (rows : List Row) :
    ∀ db : DB,
      (∃ u, (insert_rows db rows).1.price_history = db.price_history ++ u) ∧
      (∃ u, (insert_rows db rows).1.listing_history = db.listing_history ++ u) := by
  induction rows with
  | nil => intro db; exact ⟨⟨[], by simp [insert_rows]⟩, ⟨[], by simp [insert_rows]⟩⟩
  | cons r rs ih =>
    intro db
    rw [insert_rows_cons]
    obtain ⟨⟨u1, hu1⟩, ⟨w1, hw1⟩⟩ := processRow_suffix db r
    obtain ⟨⟨u2, hu2⟩, ⟨w2, hw2⟩⟩ := ih (processRow db r).1
    exact ⟨⟨u1 ++ u2, by rw [hu2, hu1, List.append_assoc]⟩,
      ⟨w1 ++ w2, by rw [hw2, hw1, List.append_assoc]⟩⟩

theorem filter_replicate_true {α : Type u} (p : α → Bool) (x : α) (hx : p x = true) :
    ∀ n, (List.replicate n x).filter p = List.replicate n x := by
  intro n
  induction n with
  | zero => rfl
  | succ n ih =>
    rw [List.replicate_succ, List.filter_cons, if_pos hx, ih]

/-! ## Claim theorems -/

/-- C5: idempotent snapshot upsert. Upserting two rows that carry the same
truthy `(vin, loaddate)` key leaves exactly one `listings` row for that
key, holding the second row's column values (never a duplicate); upserting
the same vin under two different dates leaves exactly one row per date. -/
theorem c5_idempotent_upsert (db : DB) (r1 r2 : Row) (v d1 d2 : Val)
    (h1 : rowKey r1 = some (v, d1)) (h2 : rowKey r2 = some (v, d2)) :
    (d1 = d2 →
      (insert_rows (insert_rows db [r1]).1 [r2]).1.listings.filter
          (fun x => x.vin == v && x.loaddate == d2)
        = [⟨v, d2, listingColumns.map (dictGet r2.cells)⟩]) ∧
    (d1 ≠ d2 →
      countKey (insert_rows (insert_rows db [r1]).1 [r2]).1 v d1 = 1 ∧
      countKey (insert_rows (insert_rows db [r1]).1 [r2]).1 v d2 = 1) := by
  rw [insert_rows_single db r1, processRow_valid db h1, insert_rows_single,
    processRow_valid _ h2]
  constructor
  · intro _
    exact filter_listingsReplace_key _ v d2 _
  · intro hne
    constructor
    · unfold countKey
      simp only
      rw [filter_listingsReplace_ne _ _ v d1
          (by simp [beq_eq_false_iff_ne.mpr (Ne.symm hne)]),
        filter_listingsReplace_key]
      rfl
    · unfold countKey
      simp only
      rw [filter_listingsReplace_key]
      rfl

/-- Witness for C5 at the concrete rows of the development: the same key
written twice keeps one row with the second values; two dates give one row
each. -/
theorem c5_idempotent_upsert_witness :
    ((insert_rows (insert_rows DB.empty [c5r1]).1 [c5r2]).1.listings.filter
        (fun x => x.vin == Val.vstr "1FAKEC5VIN000001" &&
          x.loaddate == Val.vstr "2024-01-01")
      = [⟨Val.vstr "1FAKEC5VIN000001", Val.vstr "2024-01-01",
          listingColumns.map (dictGet c5r2.cells)⟩]) ∧
    countKey (insert_rows (insert_rows DB.empty [c5r1]).1 [c5r3]).1
      (Val.vstr "1FAKEC5VIN000001") (Val.vstr "2024-01-01") = 1 ∧
    countKey (insert_rows (insert_rows DB.empty [c5r1]).1 [c5r3]).1
      (Val.vstr "1FAKEC5VIN000001") (Val.vstr "2024-01-02") = 1 := by
  refine ⟨(c5_idempotent_upsert DB.empty c5r1 c5r2 (Val.vstr "1FAKEC5VIN000001")
      (Val.vstr "2024-01-01") (Val.vstr "2024-01-01") (by decide) (by decide)).1 rfl,
    ?_, ?_⟩
  · exact ((c5_idempotent_upsert DB.empty c5r1 c5r3 (Val.vstr "1FAKEC5VIN000001")
      (Val.vstr "2024-01-01") (Val.vstr "2024-01-02") (by decide) (by decide)).2
      (by decide)).1
  · exact ((c5_idempotent_upsert DB.empty c5r1 c5r3 (Val.vstr "1FAKEC5VIN000001")
      (Val.vstr "2024-01-01") (Val.vstr "2024-01-02") (by decide) (by decide)).2
      (by decide)).2

/-- C6: `insert_rows` writes a snapshot exactly for the rows with a truthy
vin and loaddate — an invalid row is skipped leaving the store unchanged
(not an error), a valid row's key is present exactly once afterwards — and
it returns the number of rows written, replacements included: the length
of the valid-row sublist. -/
theorem c6_insert_rows_contract (db : DB) (rows : List Row) (r : Row)
    (v d : Val) :
    (insert_rows db rows).2 = (rows.filter rowValid).length ∧
    (rowValid r = false → processRow db r = (db, 0)) ∧
    (rowKey r = some (v, d) → countKey (processRow db r).1 v d = 1) := by
  refine ⟨insert_rows_count db rows, fun h => processRow_invalid db h, fun h => ?_⟩
  rw [processRow_valid db h]
  unfold countKey
  simp only
  rw [filter_listingsReplace_key]
  rfl

/-- Witness for C6 at the spec's example batch: the empty-vin row is
skipped without error, the batch returns 1, and the valid row's key is
stored once. -/
theorem c6_insert_rows_contract_witness :
    (insert_rows DB.empty [c6r1, c6r2]).2 = 1 ∧
    processRow DB.empty c6r2 = (DB.empty, 0) ∧
    countKey (processRow DB.empty c6r1).1 (Val.vstr "1FAKE000000000001")
      (Val.vstr "2024-01-01") = 1 := by
  refine ⟨?_, ?_, ?_⟩
  · exact ((c6_insert_rows_contract DB.empty [c6r1, c6r2] c6r1
      (Val.vstr "1FAKE000000000001") (Val.vstr "2024-01-01")).1).trans (by decide)
  · exact (c6_insert_rows_contract DB.empty [] c6r2
      (Val.vstr "") (Val.vstr "")).2.1 (by decide)
  · exact (c6_insert_rows_contract DB.empty [] c6r1
      (Val.vstr "1FAKE000000000001") (Val.vstr "2024-01-01")).2.2 (by decide)

/-- C9: the single-record enrichment upsert is definitionally the batch
upsert applied to the singleton dict, exactly as
`insert_nhtsa_enrichment` delegates in the source. -/
theorem c9_single_is_batch (db : DB) (vin : Val) (data : List (String × Val)) :
    insert_nhtsa_enrichment db vin data
      = insert_nhtsa_enrichment_batch db [(vin, data)] := rfl

/-- C10: a malformed (unparseable or non-list) nested history payload only
skips that payload's entries: the row's snapshot is still written under its
key and still counted, and the batch continues over the remaining rows
exactly as if the row had been well-formed. -/
theorem c10_malformed_history (db : DB) (r : Row) (rest : List Row) (v d : Val)
    (hk : rowKey r = some (v, d)) :
    ((r.priceHistory = HistPayload.malformed ∨ r.priceHistory = HistPayload.notAList) →
      (processRow db r).1.price_history = db.price_history) ∧
    ((r.listingHistory = HistPayload.malformed ∨ r.listingHistory = HistPayload.notAList) →
      (processRow db r).1.listing_history = db.listing_history) ∧
    (processRow db r).2 = 1 ∧
    countKey (processRow db r).1 v d = 1 ∧
    insert_rows db (r :: rest)
      = ((insert_rows (processRow db r).1 rest).1,
          (processRow db r).2 + (insert_rows (processRow db r).1 rest).2) := by
  refine ⟨?_, ?_, ?_, ?_, insert_rows_cons db r rest⟩
  · intro hp
    rw [processRow_valid db hk]
    rcases hp with hp | hp <;> rw [hp] <;> rfl
  · intro hp
    rw [processRow_valid db hk]
    rcases hp with hp | hp <;> rw [hp] <;> rfl
  · rw [processRow_valid db hk]
  · rw [processRow_valid db hk]
    unfold countKey
    simp only
    rw [filter_listingsReplace_key]
    rfl

/-- Witness for C10 at a concrete row with an unparseable `priceHistory`
and a non-list `listingHistory`: history tables untouched, snapshot written
and counted, batch processing continues. -/
theorem c10_malformed_history_witness :
    (processRow DB.empty c10row).1.price_history = DB.empty.price_history ∧
    (processRow DB.empty c10row).1.listing_history = DB.empty.listing_history ∧
    (processRow DB.empty c10row).2 = 1 ∧
    countKey (processRow DB.empty c10row).1 (Val.vstr "1FAKEC10VIN00001")
      (Val.vstr "2024-01-01") = 1 ∧
    insert_rows DB.empty (c10row :: [c6r1])
      = ((insert_rows (processRow DB.empty c10row).1 [c6r1]).1,
          (processRow DB.empty c10row).2 +
            (insert_rows (processRow DB.empty c10row).1 [c6r1]).2) := by
  have h := c10_malformed_history DB.empty c10row [c6r1]
    (Val.vstr "1FAKEC10VIN00001") (Val.vstr "2024-01-01") (by decide)
  exact ⟨h.1 (Or.inl (by decide)), h.2.1 (Or.inr (by decide)), h.2.2.1,
    h.2.2.2.1, h.2.2.2.2⟩

/-- C8 as stated is false on the code: the same row, carrying one identical
nested price-history entry whose date is missing (NULL), inserted twice,
leaves two identical copies in `price_history` — the SQLite unique index
treats NULLs as distinct, so INSERT OR IGNORE does not deduplicate them. -/
theorem c8_counterexample :
    c8nullRow.priceHistory = HistPayload.entries [c8nullEntry] ∧
    (insert_rows DB.empty [c8nullRow, c8nullRow]).1.price_history
      = [mkPH (Val.vstr "1FAKEC8VIN000001") c8nullEntry,
         mkPH (Val.vstr "1FAKEC8VIN000001") c8nullEntry] := by
  exact ⟨rfl, by decide⟩

/-- C8 amended: inserting two rows for the same vin with identical nested
history entries leaves only the first entry's copies PROVIDED each entry's
unique-key fields are present (date and price; plus mileage for listing
history) — NULL key fields escape the unique index; and history rows are
append-only: an upsert never modifies an existing history row, it can only
append new ones. -/
theorem c8_history_dedup (db : DB) (r : Row) (rows : List Row) :
    ((∀ e ∈ phEntriesOf r, e.hdate.isSome = true ∧ e.price.isSome = true) →
     (∀ e ∈ lhEntriesOf r, e.hdate.isSome = true ∧ e.price.isSome = true ∧
        e.mileage.isSome = true) →
      (insert_rows db [r, r]).1.price_history
        = (insert_rows db [r]).1.price_history ∧
      (insert_rows db [r, r]).1.listing_history
        = (insert_rows db [r]).1.listing_history) ∧
    (∃ u, (insert_rows db rows).1.price_history = db.price_history ++ u) ∧
    (∃ u, (insert_rows db rows).1.listing_history = db.listing_history ++ u) := by
  refine ⟨fun hph hlh => ?_, (insert_rows_suffix rows db).1,
    (insert_rows_suffix rows db).2⟩
  rw [insert_rows_cons, insert_rows_single, insert_rows_single]
  by_cases hvalid : rowValid r = true
  · obtain ⟨v, d, hk⟩ := rowValid_rowKey hvalid
    rw [processRow_valid db hk, processRow_valid _ hk]
    constructor
    · simp only
      cases hp : r.priceHistory with
      | entries es =>
        simp only [phApply]
        apply phFold_twice
        intro e he
        have hke := hph e (by unfold phEntriesOf; rw [hp]; exact he)
        exact phConflict_self v e hke.1 hke.2
      | absent => rfl
      | malformed => rfl
      | notAList => rfl
    · simp only
      cases hp : r.listingHistory with
      | entries es =>
        simp only [lhApply]
        apply lhFold_twice
        intro e he
        have hke := hlh e (by unfold lhEntriesOf; rw [hp]; exact he)
        exact lhConflict_self v e hke.1 hke.2.1 hke.2.2
      | absent => rfl
      | malformed => rfl
      | notAList => rfl
  · have hf : rowValid r = false := by
      cases hb : rowValid r with
      | false => rfl
      | true => exact absurd hb hvalid
    have hgen : ∀ x : DB, processRow x r = (x, 0) := fun x => processRow_invalid x hf
    rw [hgen, hgen]
    exact ⟨rfl, rfl⟩

/-- Witness for the amended C8 at a concrete fully-keyed row inserted
twice: both history tables equal those of a single insert. -/
theorem c8_history_dedup_witness :
    (insert_rows DB.empty [c8keyedRow, c8keyedRow]).1.price_history
      = (insert_rows DB.empty [c8keyedRow]).1.price_history ∧
    (insert_rows DB.empty [c8keyedRow, c8keyedRow]).1.listing_history
      = (insert_rows DB.empty [c8keyedRow]).1.listing_history := by
  exact (c8_history_dedup DB.empty c8keyedRow []).1 (by decide) (by decide)

/-- C7 as stated is false on the code: a batch whose dict covers every
backlog vin but maps one of them to an empty fields map leaves that vin in
the backlog, because `insert_nhtsa_enrichment_batch` skips empty fields
maps. -/
theorem c7_counterexample :
    get_vins_for_enrichment c7db = [Val.vstr "1FAKEC7VIN000001"] ∧
    (c7batchEmpty.map Prod.fst) = get_vins_for_enrichment c7db ∧
    get_vins_for_enrichment (insert_nhtsa_enrichment_batch c7db c7batchEmpty)
      = [Val.vstr "1FAKEC7VIN000001"] := by decide

/-- C7 amended: the backlog is exactly the left-anti-join of snapshot vins
against enrichment vins; and a batch covering every backlog vin with a
NON-EMPTY fields map empties the backlog (empty fields maps are skipped by
the batch insert and leave their vin in the backlog). -/
theorem c7_backlog_correctness (db : DB) (v : Val)
    (batch : List (Val × List (String × Val))) :
    (v ∈ get_vins_for_enrichment db ↔
      ((∃ l ∈ db.listings, l.vin = v) ∧ enrHasVin db v = false)) ∧
    ((get_vins_for_enrichment db).all
        (fun w => batch.any (fun p => p.1 == w && !p.2.isEmpty)) = true →
      get_vins_for_enrichment (insert_nhtsa_enrichment_batch db batch) = []) := by
  refine ⟨mem_backlog, fun hcov => ?_⟩
  rw [List.eq_nil_iff_forall_not_mem]
  intro w hw
  rw [mem_backlog] at hw
  obtain ⟨⟨l, hl, hlv⟩, he⟩ := hw
  rw [(enr_batch_tables batch db).1] at hl
  rw [enrHasVin_batch] at he
  have h1 : enrHasVin db w = false := by
    cases hx : enrHasVin db w with
    | false => rfl
    | true => rw [hx] at he; exact absurd he (by simp)
  have h2 : batch.any (fun p => p.1 == w && !p.2.isEmpty) = false := by
    cases hx : batch.any (fun p => p.1 == w && !p.2.isEmpty) with
    | false => rfl
    | true => rw [hx] at he; exact absurd he (by simp)
  have hwb : w ∈ get_vins_for_enrichment db := mem_backlog.mpr ⟨⟨l, hl, hlv⟩, h1⟩
  have hc := List.all_eq_true.mp hcov w hwb
  rw [h2] at hc
  exact absurd hc (by simp)

/-- Witness for the amended C7: the concrete store's backlog holds exactly
its un-enriched snapshot vin, and a covering batch with non-empty fields
empties it. -/
theorem c7_backlog_correctness_witness :
    (Val.vstr "1FAKEC7VIN000001" ∈ get_vins_for_enrichment c7db ↔
      ((∃ l ∈ c7db.listings, l.vin = Val.vstr "1FAKEC7VIN000001") ∧
        enrHasVin c7db (Val.vstr "1FAKEC7VIN000001") = false)) ∧
    get_vins_for_enrichment (insert_nhtsa_enrichment_batch c7db c7batchGood)
      = [] := by
  exact ⟨(c7_backlog_correctness c7db (Val.vstr "1FAKEC7VIN000001") c7batchGood).1,
    (c7_backlog_correctness c7db (Val.vstr "1FAKEC7VIN000001") c7batchGood).2
      (by decide)⟩

/-- C1 as stated is false on the code: `insert_nhtsa_enrichment_batch`
skips a vin whose fields map is empty (writing no record); a vin failing
the validity filter is excluded from the request and, the decode returning
nothing, its batch completes without marking it enriched; and a valid vin
absent from the primary response likewise gets no EnrichmentRecord when
its batch completes — all three stay in the backlog instead of being
marked enriched with empty fields. -/
theorem c1_counterexample :
    insert_nhtsa_enrichment_batch c1db [(Val.vstr "ab", [])] = c1db ∧
    is_valid_vin_val (Val.vstr "ab") = false ∧
    process_batch c1envNone c1db [Val.vstr "ab"] = c1db ∧
    enrHasVin c1db (Val.vstr "ab") = false ∧
    respVins c1respEnv c1vins = [Val.vstr "1FAKEVIN00000001"] ∧
    enrHasVin (process_batch c1respEnv DB.empty c1vins)
      (Val.vstr "1FAKEVIN00000002") = false := by decide

/-- C1 amended: once a batch completes, a vin has an EnrichmentRecord
exactly when it already had one or it occurred with a truthy VIN in the
primary decode response; vins failing the validity filter or absent from
the response receive NO record (remaining in backlog), and the batch
insert skips an empty fields map instead of writing a record for it. -/
theorem c1_enrichment_marking (env : LookupEnv) (db : DB) (batch : List Val)
    (v vin0 : Val) :
    enrHasVin (process_batch env db batch) v
      = (enrHasVin db v || (respVins env batch).any (fun w => w == v)) ∧
    insert_nhtsa_enrichment_batch db [(vin0, [])] = db := by
  refine ⟨process_batch_hasVin env db batch v, ?_⟩
  simp [insert_nhtsa_enrichment_batch]

/-- C2 as stated is false on the code: a placeholder vin (masking `*`)
with a Snapshot row and no enrichment row IS returned by the backlog
query, which has no validity filter. -/
theorem c2_counterexample :
    is_valid_vin_val (Val.vstr "1F*KEMASKEDVIN01") = false ∧
    get_vins_for_enrichment c2db = [Val.vstr "1F*KEMASKEDVIN01"] := by decide

/-- C2 amended: an invalid vin DOES appear in the backlog whenever it has a
Snapshot row and no enrichment row (the backlog query does not filter
validity); what holds is that the enrichment flow never persists it: it is
excluded from the request payload, and — provided the external decode
response only reports vins passing the validity filter, e.g. vins it was
asked about — `process_batch` never writes an EnrichmentRecord for an
invalid vin. -/
theorem c2_invalid_vin_flow (db : DB) (v : Val) (env : LookupEnv)
    (batch : List Val)
    (hecho : ∀ payload results, env.decodeResults payload = some results →
      ∀ r ∈ results, ∀ w : Val, dictGet r "VIN" = some w → truthy w = true →
        is_valid_vin_val w = true) :
    ((∃ l ∈ db.listings, l.vin = v) → enrHasVin db v = false →
      v ∈ get_vins_for_enrichment db) ∧
    (is_valid_vin_val v = false → enrHasVin db v = false →
      enrHasVin (process_batch env db batch) v = false) := by
  constructor
  · intro hl he
    exact mem_backlog.mpr ⟨hl, he⟩
  · intro hinv he
    rw [process_batch_hasVin, he, Bool.false_or]
    cases hx : (respVins env batch).any (fun w => w == v) with
    | false => rfl
    | true =>
      obtain ⟨w, hw, hwv⟩ := List.any_eq_true.mp hx
      have hval := respVins_valid hecho w hw
      rw [eq_of_beq hwv] at hval
      rw [hinv] at hval
      exact absurd hval (by simp)

/-- Witness for the amended C2 at the concrete store: the masked vin sits
in the backlog, and a batch through a non-responding lookup leaves it
without an EnrichmentRecord. -/
theorem c2_invalid_vin_flow_witness :
    Val.vstr "1F*KEMASKEDVIN01" ∈ get_vins_for_enrichment c2db ∧
    enrHasVin (process_batch c2envNone c2db [Val.vstr "1F*KEMASKEDVIN01"])
      (Val.vstr "1F*KEMASKEDVIN01") = false := by
  have h := c2_invalid_vin_flow c2db (Val.vstr "1F*KEMASKEDVIN01") c2envNone
    [Val.vstr "1F*KEMASKEDVIN01"]
    (fun payload results hr => absurd hr (by simp [c2envNone]))
  exact ⟨h.1 (by decide) (by decide), h.2 (by decide) (by decide)⟩

/-- C3 as stated is false on the code: with 3 sub-sources each clickable
exactly twice then absent, the controls report success 6 times in total,
yet the loop performs 2 productive rounds, not 6 (one success per
sub-source per round, so productive rounds track the per-source budget,
not the total). -/
theorem c3_counterexample :
    runLoop MAX_RETRIES 3 c3init 0 = some c3final ∧
    (c3final.buttons.map succCount).sum = 6 ∧
    c3final.productiveRounds = 2 := by decide

/-- C3 amended: when each of the n ≥ 1 sub-sources' controls succeeds
exactly k times and then permanently fails (the control is absent), the
round loop terminates — any fuel of at least k+1 rounds returns the same
final state — with exactly k productive rounds, the convergence exit
taken, and all n sub-sources exhausted. -/
theorem c3_convergence (m n k fuel : Nat) (hm : m ≠ 0) (hn : n ≠ 0)
    (hf : k + 1 ≤ fuel) :
    runLoop m fuel (List.replicate n (freshUniform k)) 0
      = some ⟨List.replicate n ⟨List.replicate k Outcome.ok, k + 1, true⟩, k, true⟩ ∧
    ((List.replicate n
        (⟨List.replicate k Outcome.ok, k + 1, true⟩ : SubSource)).filter
      (fun b => b.exhausted)).length = n := by
  constructor
  · have h := runLoop_uniform m n hm hn k 0 0 k (by omega)
    rw [Nat.zero_add] at h
    exact runLoop_fuel_mono m (k + 1) fuel _ 0 _ h hf
  · rw [filter_replicate_true (fun b : SubSource => b.exhausted)
      ⟨List.replicate k Outcome.ok, k + 1, true⟩ rfl n, List.length_replicate]

/-- Witness for the amended C3 at the spec's scenario (3 sub-sources, each
clickable exactly twice, MAX_RETRIES = 3): 2 productive rounds, converged,
exhausted set of size 3. -/
theorem c3_convergence_witness :
    runLoop MAX_RETRIES 3 (List.replicate 3 (freshUniform 2)) 0
      = some ⟨List.replicate 3 ⟨List.replicate 2 Outcome.ok, 3, true⟩, 2, true⟩ ∧
    ((List.replicate 3
        (⟨List.replicate 2 Outcome.ok, 3, true⟩ : SubSource)).filter
      (fun b => b.exhausted)).length = 3 :=
  c3_convergence MAX_RETRIES 3 2 3 (by decide) (by decide) (by decide)

/-- C4 as stated is false on the code: a transient failure is NOT retried.
`_click_button` reports a timeout as `False` exactly like an absent
control, and the loop marks the sub-source unclickable immediately: here
the first attempt fails transiently, the second attempt would have
succeeded (well within MAX_RETRIES = 3), yet the run ends with the
sub-source exhausted after one attempt and zero productive rounds. -/
theorem c4_counterexample :
    runLoop MAX_RETRIES 2 [c4btnT] 0
      = some ⟨[⟨[Outcome.failT, Outcome.ok], 1, true⟩], 0, true⟩ ∧
    outcomeAt c4btnT.schedule 0 = Outcome.failT ∧
    outcomeAt c4btnT.schedule 1 = Outcome.ok := by decide

/-- C4 amended: any failure reported by the click helper — transient or
definitive alike — moves the sub-source into the exhausted set immediately
after a single attempt; only an exception escaping the ribbon handling
consumes one of the maxRetries attempts and is retried; and a sub-source
in the exhausted set is never attempted again within the run (its state is
untouched by every later round). -/
theorem c4_retry_semantics (m : Nat) (b : SubSource) (sched : List Outcome)
    (a r fuel p : Nat) (bs : List SubSource) (res : RunResult) (i : Nat)
    (b0 : SubSource) :
    (m ≠ 0 → b.exhausted = false →
      (outcomeAt b.schedule b.attempts = Outcome.failT ∨
       outcomeAt b.schedule b.attempts = Outcome.failD) →
      stepButton m b
        = ({ b with attempts := b.attempts + 1, exhausted := true }, false)) ∧
    (outcomeAt sched a = Outcome.exn →
      tryClicks sched a (r + 1) = tryClicks sched (a + 1) r) ∧
    (runLoop m fuel bs p = some res → bs[i]? = some b0 → b0.exhausted = true →
      res.buttons[i]? = some b0) :=
  ⟨fun hm hex h => stepButton_fail hm hex h, fun h => tryClicks_exn r h,
    fun hrun hb hex => runLoop_exh m fuel bs p res hrun i b0 hb hex⟩

/-- Witness for the amended C4: a definitive failure exhausts after one
attempt; an exception is retried into the next attempt; an exhausted
sub-source survives a whole run untouched. -/
theorem c4_retry_semantics_witness :
    stepButton MAX_RETRIES c4btnF = (⟨[Outcome.failD], 1, true⟩, false) ∧
    tryClicks [Outcome.exn, Outcome.ok] 0 3 = tryClicks [Outcome.exn, Outcome.ok] 1 2 ∧
    (⟨[c4btnEx], 0, true⟩ : RunResult).buttons[0]? = some c4btnEx := by
  refine ⟨?_, ?_, ?_⟩
  · exact (c4_retry_semantics MAX_RETRIES c4btnF [] 0 0 0 0 [] ⟨[], 0, true⟩ 0
      c4btnEx).1 (by decide) (by decide) (Or.inr (by decide))
  · exact (c4_retry_semantics MAX_RETRIES c4btnF [Outcome.exn, Outcome.ok] 0 2 0 0
      [] ⟨[], 0, true⟩ 0 c4btnEx).2.1 (by decide)
  · exact (c4_retry_semantics MAX_RETRIES c4btnF [] 0 0 1 0 [c4btnEx]
      ⟨[c4btnEx], 0, true⟩ 0 c4btnEx).2.2 (by decide) (by decide) (by decide)

end CarData
